import Mathlib

set_option maxHeartbeats 1000000

/- Shallow embedding of the comet-mcp MCP server: the status classifier of
   `CometAI.getAgentStatus` (comet-ai module), the `comet_ask` polling loop,
   the `comet_screenshot` handler and the tool dispatcher (index.ts).
   Page text is modelled as `List Char`; DOM-level facts that the code reads
   through `document.querySelector` (active stop button, loading spinner,
   prose-element texts) are fields of a `Snapshot`. -/

/-! ## String utilities (JS string operations on `List Char`) -/

def toLowerL (s : List Char) : List Char := s.map Char.toLower

def isPrefixOfL : List Char → List Char → Bool
  | [], _ => true
  | _ :: _, [] => false
  | a :: ar, b :: br => a == b && isPrefixOfL ar br

/-- JS `String.prototype.includes`. -/
def containsSub : List Char → List Char → Bool
  | [], pat => isPrefixOfL pat []
  | c :: rest, pat => isPrefixOfL pat (c :: rest) || containsSub rest pat

/-- JS `String.prototype.indexOf` (first index of a substring). -/
def indexOfSub : List Char → List Char → Option Nat
  | [], pat => if isPrefixOfL pat [] then some 0 else none
  | c :: rest, pat =>
    if isPrefixOfL pat (c :: rest) then some 0
    else (indexOfSub rest pat).map (· + 1)

/-- JS `String.prototype.indexOf` with a start index (absolute result). -/
def indexOfFrom (s pat : List Char) (start : Nat) : Option Nat :=
  (indexOfSub (s.drop start) pat).map (· + start)

def jsWhitespace (c : Char) : Bool :=
  c == ' ' || c == '\t' || c == '\n' || c == '\r' || c == '\x0b' || c == '\x0c'

/-- JS `String.prototype.trim` (for the ASCII whitespace the repo deals in). -/
def trimL (s : List Char) : List Char :=
  ((s.dropWhile jsWhitespace).reverse.dropWhile jsWhitespace).reverse

/-- Does some suffix of the text satisfy `p`?  Used to model regex `test`. -/
def anySuffix (p : List Char → Bool) : List Char → Bool
  | [] => p []
  | c :: rest => p (c :: rest) || anySuffix p rest

/-! ## Snapshot data model and status classification
    (comet-ai module, `getAgentStatus` page evaluation) -/

structure Snapshot where
  body : List Char
  proseTexts : List (List Char)
  hasActiveStopButton : Bool
  hasLoadingSpinner : Bool
deriving DecidableEq

inductive AgentStatus
  | idle
  | working
  | completed
deriving DecidableEq

/-- One position of the case-insensitive regex `(\d+) steps? completed`
    (applied to the lowercased body). -/
def stepsCompletedHere : List Char → Bool
  | [] => false
  | c :: rest =>
    c.isDigit &&
      (isPrefixOfL " steps completed".data (rest.dropWhile Char.isDigit) ||
       isPrefixOfL " step completed".data (rest.dropWhile Char.isDigit))

def hasStepsCompleted (body : List Char) : Bool :=
  anySuffix stepsCompletedHere (toLowerL body)

/-- One position of the case-insensitive regex `Reviewed \d+ sources?`. -/
def reviewedHere (l : List Char) : Bool :=
  isPrefixOfL "reviewed ".data l &&
    (match l.drop 9 with
     | [] => false
     | c :: rest => c.isDigit && isPrefixOfL " source".data (rest.dropWhile Char.isDigit))

def hasReviewedSources (body : List Char) : Bool :=
  anySuffix reviewedHere (toLowerL body)

/-- The literal working-vocabulary patterns of `getAgentStatus` (the first one
    is the mojibake ellipsis variant that appears verbatim in the source). -/
def workingPatterns : List String :=
  ["Workingâ€¦", "Working...", "Searching", "Reviewing sources",
   "Preparing to assist", "Clicking", "Typing:", "Navigating to",
   "Reading", "Analyzing"]

def hasWorkingText (body : List Char) : Bool :=
  workingPatterns.any (fun p => containsSub body p.data)

def hasFinishedMarker (snap : Snapshot) : Bool :=
  containsSub snap.body "Finished".data && !snap.hasActiveStopButton

/-- The status determination if-chain of `getAgentStatus`. -/
def classifyStatus (snap : Snapshot) : AgentStatus :=
  if snap.hasActiveStopButton || snap.hasLoadingSpinner then .working
  else if hasStepsCompleted snap.body || hasFinishedMarker snap then .completed
  else if hasReviewedSources snap.body && !hasWorkingText snap.body then .completed
  else if hasWorkingText snap.body then .working
  else .idle

/-! ## Step extraction -/

def stepPatterns : List String :=
  ["Preparing to assist", "Clicking", "Typing:", "Navigating", "Reading",
   "Searching", "Found"]

/-- All matches of the global regex `pat[^\n]*`: scan left to right, take the
    rest of the line at each occurrence, resume after the match.  `fuel` is the
    length of the scanned text, which bounds the number of scanning moves. -/
def matchLinePatGo (pat : List Char) : Nat → List Char → List (List Char)
  | 0, _ => []
  | _ + 1, [] => []
  | fuel + 1, c :: rest =>
    if isPrefixOfL pat (c :: rest) then
      let m := (c :: rest).takeWhile (fun x => x != '\n')
      m :: matchLinePatGo pat fuel (rest.drop (m.length - 1))
    else
      matchLinePatGo pat fuel rest

def matchLinePat (pat body : List Char) : List (List Char) :=
  matchLinePatGo pat body.length body

/-- The raw `steps` array of `getAgentStatus` before deduplication: matches
    grouped pattern by pattern, each match trimmed and cut to 100 chars. -/
def rawSteps (body : List Char) : List (List Char) :=
  (stepPatterns.map (fun p => (matchLinePat p.data body).map (fun s => (trimL s).take 100))).flatten

/-- JS `[...new Set(steps)]`: keep the first occurrence of each text. -/
def dedupGo (seen : List (List Char)) : List (List Char) → List (List Char)
  | [] => []
  | x :: xs => if x ∈ seen then dedupGo seen xs else x :: dedupGo (x :: seen) xs

/-- `[...new Set(steps)].slice(-5)`. -/
def stepsOf (body : List Char) : List (List Char) :=
  let d := dedupGo [] (rawSteps body)
  d.drop (d.length - 5)

/-- `steps.length > 0 ? steps[steps.length - 1] : ''` over the raw array. -/
def currentStepOf (body : List Char) : List Char :=
  (rawSteps body).getLast?.getD []

/-! ## Response extraction (three strategies) -/

/-- Strategy 1 eligibility of one prose-element text: trimmed, longer than 5
    chars and not starting with the Related marker. -/
def eligibleProse (t : List Char) : Option (List Char) :=
  let tt := trimL t
  if 5 < tt.length ∧ isPrefixOfL "Related".data tt = false then some tt else none

def firstEligible : List (List Char) → Option (List Char)
  | [] => none
  | t :: rest =>
    match eligibleProse t with
    | some r => some r
    | none => firstEligible rest

/-- Strategy 1: last eligible prose element (the loop walks indices downward). -/
def strategy1 (prose : List (List Char)) : Option (List Char) :=
  firstEligible prose.reverse

/-- Length of a match of the case-sensitive regex `Reviewed \d+ sources?`
    anchored at the head of `l` (greedy in the digits and the plural s). -/
def reviewedMatchLen (l : List Char) : Option Nat :=
  if isPrefixOfL "Reviewed ".data l then
    match l.drop 9 with
    | [] => none
    | c :: rest =>
      if c.isDigit then
        let ds := 1 + (rest.takeWhile Char.isDigit).length
        if isPrefixOfL " sources".data (l.drop (9 + ds)) then some (9 + ds + 8)
        else if isPrefixOfL " source".data (l.drop (9 + ds)) then some (9 + ds + 7)
        else none
      else none
  else none

/-- Index just past the leftmost match of `Reviewed \d+ sources?`
    (the `startIdx` of strategy 2). -/
def findReviewedEndGo (idx : Nat) : List Char → Option Nat
  | [] => none
  | c :: rest =>
    match reviewedMatchLen (c :: rest) with
    | some n => some (idx + n)
    | none => findReviewedEndGo (idx + 1) rest

def findReviewedEnd (body : List Char) : Option Nat :=
  findReviewedEndGo 0 body

def endMarkers2 : List String := ["Related", "Ask a follow-up", "Ask anything", "Share", "Copy"]

def endMarkers3 : List String := ["Related", "Ask a follow-up", "Ask anything", "Sources"]

/-- Strategy 2: text after the reviewed-sources marker up to the first trailing
    marker strictly past the start (`idx > startIdx && idx < endIdx`), trimmed. -/
def strategy2 (body : List Char) : Option (List Char) :=
  match findReviewedEnd body with
  | none => none
  | some startIdx =>
    let endIdx := endMarkers2.foldl (fun acc m =>
      match indexOfFrom body m.data startIdx with
      | some i => if startIdx < i ∧ i < acc then i else acc
      | none => acc) body.length
    some (trimL ((body.drop startIdx).take (endIdx - startIdx)))

/-- Strategy 3: text after the literal `steps completed` (15 chars) up to the
    first trailing marker at a strictly positive offset, trimmed. -/
def strategy3 (body : List Char) : Option (List Char) :=
  match indexOfSub body "steps completed".data with
  | none => none
  | some i =>
    let after := body.drop (i + 15)
    let endIdx := endMarkers3.foldl (fun acc m =>
      match indexOfSub after m.data with
      | some j => if 0 < j ∧ j < acc then j else acc
      | none => acc) after.length
    some (trimL (after.take endIdx))

/-- The strategy pipeline of `getAgentStatus`: strategy 2 runs only when the
    response so far is empty, strategy 3 whenever it is shorter than 5 chars
    (the JS guard `!response || response.length < 5`), and a strategy-3 miss
    (no `steps completed` in the body) leaves the response unchanged. -/
def extractResponse (snap : Snapshot) : List Char :=
  let r1 := (strategy1 snap.proseTexts).getD []
  let r2 := if r1 = [] then (strategy2 snap.body).getD [] else r1
  if r2.length < 5 then (strategy3 snap.body).getD r2 else r2

/-- `response` is extracted only for completed status and is always cut to
    3000 chars (`response.substring(0, 3000)`). -/
def responseOf (snap : Snapshot) : List Char :=
  (if classifyStatus snap = .completed then extractResponse snap else []).take 3000

structure AgentStatusResult where
  status : AgentStatus
  steps : List (List Char)
  currentStep : List Char
  response : List Char
  hasStopButton : Bool
  agentBrowsingUrl : List Char
deriving DecidableEq

/-- The value `getAgentStatus` resolves with: classification and extraction
    from the page snapshot, plus the agent-browsing URL read from the tab list. -/
def getAgentStatus (snap : Snapshot) (agentBrowsingUrl : List Char) : AgentStatusResult :=
  { status := classifyStatus snap,
    steps := stepsOf snap.body,
    currentStep := currentStepOf snap.body,
    response := responseOf snap,
    hasStopButton := snap.hasActiveStopButton,
    agentBrowsingUrl := agentBrowsingUrl }

/-! ## Polling orchestrator (the `comet_ask` handler loop of index.ts)

    Time model: the only suspensions are the fixed 2000 ms sleep at the top of
    each loop iteration (page evaluations are taken as instantaneous), so the
    elapsed time when poll number `k` (zero-based) is processed is
    `2000 * (k + 1)` ms, and the while condition `Date.now() - startTime <
    timeout` is checked at elapsed `2000 * k`.  The loop therefore runs at most
    `(timeout + 1999) / 2000` iterations, which the embedding uses as fuel.
    The progress log models the lines pushed to `progressLog` (also echoed to
    stderr), stored as (elapsed seconds, message) pairs. -/

inductive LogMsg
  | started
  | step (s : List Char)
  | url (u : List Char)
  | processing
  | current (s : List Char)
  | completedMark
  | completedQuick
  | timeoutMark
deriving DecidableEq

def renderMsg : LogMsg → List Char
  | .started => "🚀 Task started".data
  | .step s => "📋 ".data ++ s
  | .url u => "🌐 ".data ++ u
  | .processing => "⚙️ Task processing...".data
  | .current s => "⏳ ".data ++ s
  | .completedMark => "✅ Task completed".data
  | .completedQuick => "✅ Task completed (quick response)".data
  | .timeoutMark => "⏰ Timeout".data

/-- The full text of a log line: `[comet Ns] msg`. -/
def renderLine (e : Nat × LogMsg) : List Char :=
  "[comet ".data ++ (Nat.repr e.1).data ++ "s] ".data ++ renderMsg e.2

structure LoopState where
  sawWorking : Bool
  seen : List (List Char)
  lastUrl : List Char
  log : List (Nat × LogMsg)
deriving DecidableEq

/-- `for (const step of status.steps) if (!seenSteps.has(step)) { add; log }`. -/
def processSteps (sec : Nat) (st : LoopState) : List (List Char) → LoopState
  | [] => st
  | s :: rest =>
    if s ∈ st.seen then processSteps sec st rest
    else processSteps sec { st with seen := st.seen ++ [s], log := st.log ++ [(sec, .step s)] } rest

/-- Log agent-browsing URL changes (nonempty and different from the last seen). -/
def processUrl (sec : Nat) (obs : AgentStatusResult) (st : LoopState) : LoopState :=
  if obs.agentBrowsingUrl ≠ [] ∧ obs.agentBrowsingUrl ≠ st.lastUrl then
    { st with lastUrl := obs.agentBrowsingUrl, log := st.log ++ [(sec, .url obs.agentBrowsingUrl)] }
  else st

/-- `progressLog[progressLog.length - 1]?.includes(currentStep)`:
    an empty log makes the optional chain undefined, hence falsy. -/
def lastLineIncludes (log : List (Nat × LogMsg)) (s : List Char) : Bool :=
  match log.getLast? with
  | some e => containsSub (renderLine e) s
  | none => false

/-- First half of the working branch: set the saw-working flag, logging the
    processing line the first time. -/
def markWorking (sec : Nat) (st : LoopState) : LoopState :=
  if st.sawWorking = false then
    { st with sawWorking := true, log := st.log ++ [(sec, .processing)] }
  else st

/-- Second half of the working branch: log the current step unless the previous
    log line already contains it. -/
def logCurrent (sec : Nat) (obs : AgentStatusResult) (st : LoopState) : LoopState :=
  if obs.currentStep ≠ [] ∧ lastLineIncludes st.log obs.currentStep = false then
    { st with log := st.log ++ [(sec, .current obs.currentStep)] }
  else st

/-- On a working status: set the saw-working flag (logging the first time) and
    log the current step unless the previous log line already contains it. -/
def processWorking (sec : Nat) (obs : AgentStatusResult) (st : LoopState) : LoopState :=
  if obs.status = .working then logCurrent sec obs (markWorking sec st) else st

/-- The per-iteration state update: new steps, URL change, working branch. -/
def stageState (sec : Nat) (obs : AgentStatusResult) (st : LoopState) : LoopState :=
  processWorking sec obs (processUrl sec obs (processSteps sec st obs.steps))

/-- `status.response || 'Task completed (no response text extracted)'`. -/
def successOutput (obs : AgentStatusResult) : List Char :=
  if obs.response = [] then "Task completed (no response text extracted)".data else obs.response

inductive AskResult
  | success (output : List Char)
  | timedOut (timeoutMs : Nat)
deriving DecidableEq

def AskResult.isSuccess : AskResult → Bool
  | .success _ => true
  | .timedOut _ => false

/-- One-to-one image of the while loop.  `fuel` is the number of loop-condition
    checks still passing (see the time model above), `k` the zero-based index of
    the next poll; exhausted fuel is exactly the deadline exit, which logs the
    timeout mark at the actual elapsed time `2000 * k` ms and reports the
    configured timeout (the text interpolates `timeout / 1000` seconds). -/
def loopGo (polls : Nat → AgentStatusResult) (timeoutMs : Nat) :
    Nat → Nat → LoopState → AskResult × List (Nat × LogMsg)
  | 0, k, st => (.timedOut timeoutMs, st.log ++ [(2 * k, .timeoutMark)])
  | fuel + 1, k, st =>
    if (polls k).status = .completed ∧ (stageState (2 * (k + 1)) (polls k) st).sawWorking = true then
      (.success (successOutput (polls k)),
        (stageState (2 * (k + 1)) (polls k) st).log ++ [(2 * (k + 1), .completedMark)])
    else if (polls k).status = .completed ∧
        (stageState (2 * (k + 1)) (polls k) st).sawWorking = false ∧ 10000 < 2000 * (k + 1) then
      (.success (successOutput (polls k)),
        (stageState (2 * (k + 1)) (polls k) st).log ++ [(2 * (k + 1), .completedQuick)])
    else
      loopGo polls timeoutMs fuel (k + 1) (stageState (2 * (k + 1)) (polls k) st)

/-- Number of iterations of the while loop: the checks at elapsed `2000 * k`
    pass exactly for `2000 * k < timeout`. -/
def loopIterations (timeoutMs : Nat) : Nat := (timeoutMs + 1999) / 2000

def initialLoopState : LoopState := ⟨false, [], [], [(0, .started)]⟩

/-- The polling phase of the `comet_ask` handler, from prompt submission to the
    returned result, paired with the emitted progress log. -/
def runAsk (polls : Nat → AgentStatusResult) (timeoutMs : Nat) :
    AskResult × List (Nat × LogMsg) :=
  loopGo polls timeoutMs (loopIterations timeoutMs) 0 initialLoopState

/-- An observation with nothing to report, used by concrete instantiations. -/
def idleObs : AgentStatusResult := ⟨.idle, [], [], [], false, []⟩

/-! ## Targets and the `comet_screenshot` handler -/

structure Target where
  tid : List Char
  ttype : List Char
  turl : List Char
deriving DecidableEq

/-- Modelled from the spec: `classifyTargets` / `listTabsCategorized` live in
    the cdp-client module, which is not among the provided source files.  Per
    section 4.2, the main target is the page-type target the session is
    currently attached to (or the first page-type target when none is
    attached), and agent-browsing is the most recently created page-type
    target other than main, or absent. -/
def classifyTargets (attached : Option (List Char)) (targets : List Target) :
    Option Target × Option Target :=
  let pages := targets.filter (fun t => t.ttype == "page".data)
  let mainT : Option Target :=
    match attached with
    | some aid =>
      match pages.find? (fun t => t.tid == aid) with
      | some t => some t
      | none => pages.head?
    | none => pages.head?
  let agentT := (pages.filter (fun t =>
    match mainT with
    | some m => t.tid != m.tid
    | none => true)).getLast?
  (mainT, agentT)

structure BrowserState where
  attached : Option (List Char)
  targets : List Target
deriving DecidableEq

inductive ScreenshotOutcome
  | captured (agentUrl : Option (List Char))
  | noAgentTab
deriving DecidableEq

/-- The `comet_screenshot` handler: with `agent_tab` set and an agent-browsing
    tab present it attaches to the agent tab, captures, then re-attaches to the
    previously identified main tab when one exists. -/
def screenshotHandler (agentTab : Bool) (st : BrowserState) :
    BrowserState × ScreenshotOutcome :=
  if agentTab then
    let c := classifyTargets st.attached st.targets
    match c.2 with
    | some a =>
      let stAgent := { st with attached := some a.tid }
      match c.1 with
      | some m => ({ stAgent with attached := some m.tid }, .captured (some a.turl))
      | none => (stAgent, .captured (some a.turl))
    | none => (st, .noAgentTab)
  else (st, .captured none)

/-! ## Tool dispatcher (the CallToolRequestSchema handler of index.ts) -/

inductive ContentItem
  | text (s : List Char)
  | image (dat : List Char) (mime : List Char)
deriving DecidableEq

structure ToolResult where
  content : List ContentItem
  isError : Bool := false
deriving DecidableEq

def toolNames : List String :=
  ["comet_connect", "comet_ask", "comet_poll", "comet_stop",
   "comet_screenshot", "comet_mode"]

/-- The catch-all of the dispatcher: a structured text result flagged as an
    error, `Error: message`. -/
def errorResult (msg : List Char) : ToolResult :=
  { content := [.text ("Error: ".data ++ msg)], isError := true }

/-- The tool dispatcher around one invocation: an unknown name throws, and any
    thrown error is caught and turned into `errorResult`; a handler outcome is
    modelled as `Except` (exception or returned result). -/
def dispatchTool (name : List Char) (handler : Except (List Char) ToolResult) : ToolResult :=
  let outcome : Except (List Char) ToolResult :=
    if toolNames.any (fun t => t.data == name) then handler
    else .error ("Unknown tool: ".data ++ name)
  match outcome with
  | .ok r => r
  | .error e => errorResult e

/-! ## The `comet_ask` handler around the loop -/

inductive BrowserEffect
  | evalJs (expr : List Char)
  | navigate (navUrl : List Char)
  | sendPrompt (p : List Char)
deriving DecidableEq

structure AskArgs where
  prompt : Option (List Char)
  timeoutArg : Option Nat
  newChat : Bool
  agentic : Bool

/-- `(args?.timeout as number) || 300000`: absent or zero (falsy) means the
    5-minute default. -/
def effectiveTimeout : Option Nat → Nat
  | none => 300000
  | some v => if v = 0 then 300000 else v

inductive AskOutcome
  | errorText (s : List Char)
  | finished (r : AskResult) (log : List (Nat × LogMsg))
deriving DecidableEq

/-- `!prompt || prompt.trim().length === 0`. -/
def promptMissingOrBlank : Option (List Char) → Bool
  | none => true
  | some p => decide (p = [] ∨ trimL p = [])

/-- The `comet_ask` handler: validate the prompt, prepend the agentic
    instruction, read the fresh URL (the first browser touch), navigate if a
    new chat was requested or the page is off Perplexity, send the prompt and
    run the polling loop.  The effect list records the browser interactions in
    order; an invalid prompt returns the error text before any of them. -/
def cometAskRun (args : AskArgs) (currentUrl : List Char)
    (polls : Nat → AgentStatusResult) : List BrowserEffect × AskOutcome :=
  match args.prompt with
  | none => ([], .errorText "Error: prompt cannot be empty".data)
  | some p0 =>
    if p0 = [] ∨ trimL p0 = [] then ([], .errorText "Error: prompt cannot be empty".data)
    else
      let p := if args.agentic then "Take control of my browser and ".data ++ p0 else p0
      let isOn := containsSub currentUrl "perplexity.ai".data
      let navEffs := if args.newChat = true ∨ isOn = false then
          [BrowserEffect.navigate "https://www.perplexity.ai/".data]
        else []
      let r := runAsk polls (effectiveTimeout args.timeoutArg)
      ([BrowserEffect.evalJs "window.location.href".data] ++ navEffs ++
        [BrowserEffect.sendPrompt p], .finished r.1 r.2)

/-! ## Helper lemmas -/

theorem dedupGo_spec (xs : List (List Char)) :
    ∀ seen, (dedupGo seen xs).Nodup ∧ (∀ y ∈ dedupGo seen xs, y ∉ seen) ∧
      dedupGo seen xs ⊆ xs := by
  induction xs with
  | nil => intro seen; simp [dedupGo]
  | cons x xs ih =>
    intro seen
    by_cases hx : x ∈ seen
    · rw [dedupGo, if_pos hx]
      obtain ⟨h1, h2, h3⟩ := ih seen
      exact ⟨h1, h2, fun y hy => List.mem_cons_of_mem x (h3 hy)⟩
    · rw [dedupGo, if_neg hx]
      obtain ⟨h1, h2, h3⟩ := ih (x :: seen)
      refine ⟨List.nodup_cons.2 ⟨fun hxd => (h2 x hxd) (List.mem_cons_self x seen), h1⟩, ?_, ?_⟩
      · intro y hy
        rcases List.mem_cons.1 hy with rfl | hy2
        · exact hx
        · exact fun hys => (h2 y hy2) (List.mem_cons_of_mem x hys)
      · intro y hy
        rcases List.mem_cons.1 hy with rfl | hy2
        · exact List.mem_cons_self y xs
        · exact List.mem_cons_of_mem x (h3 hy2)

theorem firstEligible_length (l : List (List Char)) :
    ∀ t, firstEligible l = some t → 5 < t.length := by
  induction l with
  | nil => intro t h; exact absurd h (by simp [firstEligible])
  | cons x xs ih =>
    intro t h
    rw [firstEligible] at h
    cases heq : eligibleProse x with
    | some r =>
      rw [heq] at h
      cases h
      simp only [eligibleProse] at heq
      split at heq
      · next hcond =>
        cases heq
        exact hcond.1
      · cases heq
    | none =>
      rw [heq] at h
      exact ih t h

theorem strategy1_length (prose : List (List Char)) (t : List Char)
    (h : strategy1 prose = some t) : 5 < t.length :=
  firstEligible_length _ t h

/-! ## Claim theorems: classifier -/

/-- C1: classifier precedence rule 1 beats rule 2 — whenever `getAgentStatus`
    detects an active stop/cancel control or an active loading indicator, the
    derived status is working, whatever else (steps-completed or finished
    markers included) the snapshot contains. -/
theorem claim_C1 (snap : Snapshot) (agentUrl : List Char)
    (h : snap.hasActiveStopButton = true ∨ snap.hasLoadingSpinner = true) :
    (getAgentStatus snap agentUrl).status = .working := by
  rcases h with h | h <;> simp [getAgentStatus, classifyStatus, h]

def stopSnap : Snapshot := ⟨"Stop button active + 3 steps completed".data, [], true, false⟩

theorem claim_C1_witness :
    hasStepsCompleted stopSnap.body = true ∧
    (getAgentStatus stopSnap []).status = .working :=
  ⟨by decide, claim_C1 stopSnap [] (Or.inl rfl)⟩

/-- C2 (amended): with no active stop affordance or loading indicator, a
    reviewed-sources marker and no working vocabulary, the status is completed;
    and when no prose element is eligible (strategy 1 empty) and the strategy-2
    extraction is between 5 and 3000 chars long, the response equals that
    extraction — the text between the reviewed-sources marker and the first
    trailing marker strictly after it, trimmed. -/
theorem claim_C2 (snap : Snapshot) (agentUrl : List Char) (r : List Char)
    (hstop : snap.hasActiveStopButton = false) (hload : snap.hasLoadingSpinner = false)
    (hrev : hasReviewedSources snap.body = true) (hwork : hasWorkingText snap.body = false)
    (hp : strategy1 snap.proseTexts = none) (hs2 : strategy2 snap.body = some r)
    (hlen : 5 ≤ r.length) (hcap : r.length ≤ 3000) :
    (getAgentStatus snap agentUrl).status = .completed ∧
    (getAgentStatus snap agentUrl).response = r := by
  have hstatus : classifyStatus snap = .completed := by
    by_cases h2 : (hasStepsCompleted snap.body || hasFinishedMarker snap) = true
    · simp [classifyStatus, hstop, hload, h2]
    · simp [classifyStatus, hstop, hload, h2, hrev, hwork]
  refine ⟨by simp [getAgentStatus, hstatus], ?_⟩
  show responseOf snap = r
  rw [responseOf, if_pos hstatus]
  have hpipe : extractResponse snap = r := by
    rw [extractResponse]
    simp only [hp, hs2, Option.getD_none, Option.getD_some, eq_self_iff_true, if_true]
    rw [if_neg (by omega)]
  rw [hpipe]
  exact List.take_of_length_le hcap

def reviewedSnap : Snapshot :=
  ⟨"Reviewed 4 sources\nAnswer text here\nRelated".data, [], false, false⟩

theorem claim_C2_witness :
    (getAgentStatus reviewedSnap []).status = .completed ∧
    (getAgentStatus reviewedSnap []).response = "Answer text here".data :=
  claim_C2 reviewedSnap [] "Answer text here".data rfl rfl (by decide) (by decide)
    (by decide) (by decide) (by decide) (by decide)

def reviewedProseSnap : Snapshot :=
  ⟨"Reviewed 4 sources\nAnswer text here\nRelated".data, ["Some other answer".data],
    false, false⟩

theorem claim_C2_counterexample :
    reviewedProseSnap.hasActiveStopButton = false ∧
    reviewedProseSnap.hasLoadingSpinner = false ∧
    hasReviewedSources reviewedProseSnap.body = true ∧
    hasWorkingText reviewedProseSnap.body = false ∧
    strategy2 reviewedProseSnap.body = some "Answer text here".data ∧
    (getAgentStatus reviewedProseSnap []).status = .completed ∧
    (getAgentStatus reviewedProseSnap []).response = "Some other answer".data ∧
    "Some other answer".data ≠ "Answer text here".data :=
  ⟨rfl, rfl, by decide, by decide, by decide, by decide, by decide, by decide⟩

/-- C4 (amended): the returned step list is deduplicated by exact text, keeps
    at most the last five entries of the deduplicated sequence, and every entry
    is one of the collected raw matches (which are grouped pattern by pattern,
    not by global text position); the current step is the last collected raw
    match, or empty when none. -/
theorem claim_C4 (snap : Snapshot) (agentUrl : List Char) :
    (getAgentStatus snap agentUrl).steps.Nodup ∧
    (getAgentStatus snap agentUrl).steps.length ≤ 5 ∧
    (∀ s ∈ (getAgentStatus snap agentUrl).steps, s ∈ rawSteps snap.body) ∧
    (getAgentStatus snap agentUrl).currentStep = (rawSteps snap.body).getLast?.getD [] := by
  obtain ⟨h1, _, h3⟩ := dedupGo_spec (rawSteps snap.body) []
  have hsub : List.Sublist ((dedupGo [] (rawSteps snap.body)).drop
      ((dedupGo [] (rawSteps snap.body)).length - 5)) (dedupGo [] (rawSteps snap.body)) :=
    List.drop_sublist _ _
  refine ⟨h1.sublist hsub, ?_, ?_, rfl⟩
  · show ((dedupGo [] (rawSteps snap.body)).drop _).length ≤ 5
    rw [List.length_drop]
    omega
  · intro s hs
    exact h3 (hsub.subset hs)

def outOfOrderSnap : Snapshot := ⟨"Clicking A\nPreparing to assist B".data, [], false, false⟩

theorem claim_C4_counterexample :
    (getAgentStatus outOfOrderSnap []).steps =
      ["Preparing to assist B".data, "Clicking A".data] ∧
    indexOfSub outOfOrderSnap.body "Clicking A".data = some 0 ∧
    indexOfSub outOfOrderSnap.body "Preparing to assist B".data = some 11 ∧
    (getAgentStatus outOfOrderSnap []).currentStep = "Clicking A".data :=
  ⟨by decide, by decide, by decide, by decide⟩

/-- C7 (amended): extraction happens only on completed status and the result is
    always cut to 3000 chars; the strategies run in order, but strategy 2 runs
    only when strategy 1 produced nothing, and strategy 3 runs whenever the
    result so far is shorter than 5 chars — hence it can replace a non-empty
    strategy-2 result of fewer than 5 chars (first-non-empty does not always
    win). -/
theorem claim_C7 :
    (∀ (snap : Snapshot) (u : List Char), classifyStatus snap ≠ .completed →
      (getAgentStatus snap u).response = []) ∧
    (∀ (snap : Snapshot) (u : List Char), (getAgentStatus snap u).response.length ≤ 3000) ∧
    (∀ (snap : Snapshot) (u t : List Char), strategy1 snap.proseTexts = some t →
      classifyStatus snap = .completed → (getAgentStatus snap u).response = t.take 3000) ∧
    (∀ (snap : Snapshot) (u r : List Char), strategy1 snap.proseTexts = none →
      strategy2 snap.body = some r → 5 ≤ r.length →
      classifyStatus snap = .completed → (getAgentStatus snap u).response = r.take 3000) ∧
    (∀ (snap : Snapshot) (u r s : List Char), strategy1 snap.proseTexts = none →
      strategy2 snap.body = some r → r.length < 5 → strategy3 snap.body = some s →
      classifyStatus snap = .completed → (getAgentStatus snap u).response = s.take 3000) := by
  refine ⟨?_, ?_, ?_, ?_, ?_⟩
  · intro snap u h
    show responseOf snap = []
    rw [responseOf, if_neg h]
    rfl
  · intro snap u
    show (responseOf snap).length ≤ 3000
    rw [responseOf, List.length_take]
    omega
  · intro snap u t h1 hst
    show responseOf snap = t.take 3000
    have hlen := strategy1_length _ _ h1
    rw [responseOf, if_pos hst, extractResponse]
    simp only [h1, Option.getD_some]
    have hne : ¬(t = []) := by
      intro he
      rw [he] at hlen
      simp at hlen
    rw [if_neg hne, if_neg (show ¬(t.length < 5) by omega)]
  · intro snap u r h1 h2 hlen hst
    show responseOf snap = r.take 3000
    rw [responseOf, if_pos hst, extractResponse]
    simp only [h1, h2, Option.getD_none, Option.getD_some, eq_self_iff_true, if_true]
    rw [if_neg (by omega)]
  · intro snap u r s h1 h2 hlen h3 hst
    show responseOf snap = s.take 3000
    rw [responseOf, if_pos hst, extractResponse]
    simp only [h1, h2, h3, Option.getD_none, Option.getD_some, eq_self_iff_true, if_true]
    rw [if_pos hlen]

def shortAnswerSnap : Snapshot :=
  ⟨"2 steps completed Reviewed 3 sources\nHi\nRelated".data, [], false, false⟩

theorem claim_C7_counterexample :
    classifyStatus shortAnswerSnap = .completed ∧
    strategy1 shortAnswerSnap.proseTexts = none ∧
    strategy2 shortAnswerSnap.body = some "Hi".data ∧
    "Hi".data ≠ ([] : List Char) ∧
    (getAgentStatus shortAnswerSnap []).response ≠ "Hi".data :=
  ⟨by decide, by decide, by decide, by decide, by decide⟩

def proseAnswerSnap : Snapshot := ⟨"Finished".data, ["A longer answer".data], false, false⟩

theorem claim_C7_witness :
    (getAgentStatus proseAnswerSnap []).response = "A longer answer".data.take 3000 :=
  claim_C7.2.2.1 proseAnswerSnap [] "A longer answer".data (by decide) (by decide)

/-! ## Claim theorems: screenshot handler, dispatcher, prompt validation -/

/-- C8: with `agent_tab` set, an agent-browsing tab present and a main tab
    identified as the page-type target the session is attached to, the
    screenshot handler attaches to the agent tab, captures, and re-attaches
    to the main tab, so the attachment after the call equals the one before. -/
theorem claim_C8 (st : BrowserState) (mid : List Char)
    (hatt : st.attached = some mid)
    (hmem : ∃ t ∈ st.targets, t.tid = mid ∧ t.ttype = "page".data)
    (hagent : (classifyTargets st.attached st.targets).2.isSome = true) :
    (screenshotHandler true st).1.attached = some mid := by
  obtain ⟨t, ht, htid, htype⟩ := hmem
  have hpage : t ∈ st.targets.filter (fun u => u.ttype == "page".data) :=
    List.mem_filter.2 ⟨ht, by simp [htype]⟩
  have hfind : ∃ y, (st.targets.filter (fun u => u.ttype == "page".data)).find?
      (fun u => u.tid == mid) = some y := by
    rw [← Option.isSome_iff_exists]
    exact List.find?_isSome.2 ⟨t, hpage, by simp [htid]⟩
  obtain ⟨y, hy⟩ := hfind
  have hyid : y.tid = mid := by
    have := List.find?_some hy
    simpa using this
  have hmain : (classifyTargets st.attached st.targets).1 = some y := by
    simp only [classifyTargets, hatt, hy]
  obtain ⟨a, ha⟩ := Option.isSome_iff_exists.1 hagent
  simp [screenshotHandler, ha, hmain, hyid]

def mainTabEx : Target := ⟨"t1".data, "page".data, "https://www.perplexity.ai/".data⟩

def agentTabEx : Target := ⟨"t2".data, "page".data, "https://x.com".data⟩

def twoTabState : BrowserState := ⟨some "t1".data, [mainTabEx, agentTabEx]⟩

theorem claim_C8_witness :
    (screenshotHandler true twoTabState).1.attached = some "t1".data :=
  claim_C8 twoTabState "t1".data rfl ⟨mainTabEx, by decide, rfl, rfl⟩ (by decide)

/-- C9: every exception thrown while handling a tool invocation — including the
    unknown-tool throw — is caught and returned as a structured text result
    with `isError` set, never propagated; the handler outcome is modelled as
    `Except` and the dispatcher is a total function into `ToolResult`. -/
theorem claim_C9 (name : List Char) (handler : Except (List Char) ToolResult)
    (e : List Char) :
    (toolNames.any (fun t => t.data == name) = true → handler = .error e →
      dispatchTool name handler = errorResult e) ∧
    (toolNames.any (fun t => t.data == name) = false →
      dispatchTool name handler = errorResult ("Unknown tool: ".data ++ name)) ∧
    (errorResult e).isError = true := by
  refine ⟨?_, ?_, rfl⟩
  · intro hknown herr
    rw [dispatchTool]
    simp only [hknown, if_true, herr]
  · intro hunknown
    rw [dispatchTool]
    simp only [hunknown]
    rfl

theorem claim_C9_witness :
    dispatchTool "comet_ask".data (.error "boom".data) = errorResult "boom".data :=
  (claim_C9 "comet_ask".data (.error "boom".data) "boom".data).1 (by decide) rfl

/-- C10: a missing, empty or whitespace-only prompt makes the `comet_ask`
    handler return the literal error text before any browser interaction —
    the effect trace is empty (no URL evaluation, navigation or prompt send). -/
theorem claim_C10 (args : AskArgs) (currentUrl : List Char)
    (polls : Nat → AgentStatusResult)
    (h : promptMissingOrBlank args.prompt = true) :
    cometAskRun args currentUrl polls =
      ([], .errorText "Error: prompt cannot be empty".data) := by
  cases hp : args.prompt with
  | none => simp [cometAskRun, hp]
  | some p =>
    rw [hp] at h
    have hcond : p = [] ∨ trimL p = [] := of_decide_eq_true h
    rw [cometAskRun]
    simp only [hp]
    rw [if_pos hcond]

theorem claim_C10_witness :
    cometAskRun ⟨some "  \t ".data, none, false, false⟩ "https://example.com".data
      (fun _ => idleObs) = ([], .errorText "Error: prompt cannot be empty".data) :=
  claim_C10 _ _ _ (by decide)

/-! ## Loop lemmas for the polling orchestrator -/

/-- Number of step (📋) entries for a given text in the progress log. -/
def countStepEntries (log : List (Nat × LogMsg)) (s : List Char) : Nat :=
  log.countP (fun e => e.2 == LogMsg.step s)

theorem countStepEntries_append (log₁ log₂ : List (Nat × LogMsg)) (s : List Char) :
    countStepEntries (log₁ ++ log₂) s = countStepEntries log₁ s + countStepEntries log₂ s :=
  List.countP_append _ _ _

theorem countStepEntries_single_step (sec : Nat) (x s : List Char) :
    countStepEntries [(sec, .step x)] s = if x = s then 1 else 0 := by
  by_cases h : x = s <;> simp [countStepEntries, h]

theorem countStepEntries_single_other (sec : Nat) (m : LogMsg) (s : List Char)
    (h : ∀ x, m ≠ .step x) : countStepEntries [(sec, m)] s = 0 := by
  cases m
  case step x => exact absurd rfl (h x)
  all_goals simp [countStepEntries]

/-- The step-log invariant of the loop: every step text appears in the log
    exactly once if it is in the seen set, otherwise not at all. -/
def logCountOk (st : LoopState) : Prop :=
  ∀ s, countStepEntries st.log s = if s ∈ st.seen then 1 else 0

theorem processSteps_ok (sec : Nat) :
    ∀ (steps : List (List Char)) (st : LoopState), logCountOk st →
      logCountOk (processSteps sec st steps) ∧
      (∀ x ∈ st.seen, x ∈ (processSteps sec st steps).seen) ∧
      (∀ x ∈ steps, x ∈ (processSteps sec st steps).seen) ∧
      (processSteps sec st steps).sawWorking = st.sawWorking := by
  intro steps
  induction steps with
  | nil =>
    intro st h
    exact ⟨h, fun x hx => hx, fun x hx => absurd hx (List.not_mem_nil x), rfl⟩
  | cons s rest ih =>
    intro st h
    by_cases hs : s ∈ st.seen
    · rw [processSteps, if_pos hs]
      obtain ⟨a, b, c, d⟩ := ih st h
      refine ⟨a, b, ?_, d⟩
      intro x hx
      rcases List.mem_cons.1 hx with rfl | hx2
      · exact b x hs
      · exact c x hx2
    · rw [processSteps, if_neg hs]
      have h2 : logCountOk { st with seen := st.seen ++ [s], log := st.log ++ [(sec, .step s)] } := by
        intro t
        show countStepEntries (st.log ++ [(sec, .step s)]) t = if t ∈ st.seen ++ [s] then 1 else 0
        rw [countStepEntries_append, countStepEntries_single_step, h t]
        by_cases ht : t = s
        · subst ht
          simp [hs]
        · have hst : ¬(s = t) := fun he => ht he.symm
          simp [hst, List.mem_append, ht]
      obtain ⟨a, b, c, d⟩ := ih _ h2
      refine ⟨a, ?_, ?_, d⟩
      · intro x hx
        exact b x (by simp [hx])
      · intro x hx
        rcases List.mem_cons.1 hx with rfl | hx2
        · exact b x (by simp)
        · exact c x hx2

theorem processUrl_ok (sec : Nat) (obs : AgentStatusResult) (st : LoopState)
    (h : logCountOk st) :
    logCountOk (processUrl sec obs st) ∧
    (processUrl sec obs st).seen = st.seen ∧
    (processUrl sec obs st).sawWorking = st.sawWorking := by
  rw [processUrl]
  split
  · refine ⟨fun t => ?_, rfl, rfl⟩
    show countStepEntries (st.log ++ [(sec, .url obs.agentBrowsingUrl)]) t =
      if t ∈ st.seen then 1 else 0
    rw [countStepEntries_append, countStepEntries_single_other _ _ _ (fun x hx => by cases hx),
      Nat.add_zero, h t]
  · exact ⟨h, rfl, rfl⟩

theorem markWorking_ok (sec : Nat) (st : LoopState) (h : logCountOk st) :
    logCountOk (markWorking sec st) ∧ (markWorking sec st).seen = st.seen ∧
    (markWorking sec st).sawWorking = true := by
  rw [markWorking]
  by_cases hsw : st.sawWorking = false
  · rw [if_pos hsw]
    refine ⟨fun t => ?_, rfl, rfl⟩
    show countStepEntries (st.log ++ [(sec, .processing)]) t = if t ∈ st.seen then 1 else 0
    rw [countStepEntries_append, countStepEntries_single_other _ _ _ (fun x hx => by cases hx),
      Nat.add_zero, h t]
  · rw [if_neg hsw]
    refine ⟨h, rfl, ?_⟩
    revert hsw
    cases st.sawWorking <;> simp

theorem logCurrent_ok (sec : Nat) (obs : AgentStatusResult) (st : LoopState)
    (h : logCountOk st) :
    logCountOk (logCurrent sec obs st) ∧ (logCurrent sec obs st).seen = st.seen ∧
    (logCurrent sec obs st).sawWorking = st.sawWorking := by
  rw [logCurrent]
  split
  · refine ⟨fun t => ?_, rfl, rfl⟩
    show countStepEntries (st.log ++ [(sec, .current obs.currentStep)]) t =
      if t ∈ st.seen then 1 else 0
    rw [countStepEntries_append, countStepEntries_single_other _ _ _ (fun x hx => by cases hx),
      Nat.add_zero, h t]
  · exact ⟨h, rfl, rfl⟩

theorem processWorking_ok (sec : Nat) (obs : AgentStatusResult) (st : LoopState)
    (h : logCountOk st) :
    logCountOk (processWorking sec obs st) ∧
    (processWorking sec obs st).seen = st.seen ∧
    (processWorking sec obs st).sawWorking =
      (st.sawWorking || decide (obs.status = .working)) := by
  rw [processWorking]
  by_cases hw : obs.status = .working
  · rw [if_pos hw]
    obtain ⟨m1, m2, m3⟩ := markWorking_ok sec st h
    obtain ⟨l1, l2, l3⟩ := logCurrent_ok sec obs _ m1
    refine ⟨l1, by rw [l2, m2], ?_⟩
    rw [l3, m3]
    simp [hw]
  · rw [if_neg hw]
    refine ⟨h, rfl, ?_⟩
    simp [hw]

theorem stageState_ok (sec : Nat) (obs : AgentStatusResult) (st : LoopState)
    (h : logCountOk st) :
    logCountOk (stageState sec obs st) ∧
    (∀ x ∈ st.seen, x ∈ (stageState sec obs st).seen) ∧
    (∀ x ∈ obs.steps, x ∈ (stageState sec obs st).seen) ∧
    (stageState sec obs st).sawWorking =
      (st.sawWorking || decide (obs.status = .working)) := by
  obtain ⟨h1, h2, h3, h4⟩ := processSteps_ok sec obs.steps st h
  obtain ⟨u1, u2, u3⟩ := processUrl_ok sec obs _ h1
  obtain ⟨w1, w2, w3⟩ := processWorking_ok sec obs _ u1
  rw [stageState]
  refine ⟨w1, ?_, ?_, ?_⟩
  · intro x hx
    rw [w2, u2]
    exact h2 x hx
  · intro x hx
    rw [w2, u2]
    exact h3 x hx
  · rw [w3, u3, h4]

theorem loopGo_count (polls : Nat → AgentStatusResult) (timeoutMs : Nat) :
    ∀ (fuel k : Nat) (st : LoopState), logCountOk st → ∀ s : List Char,
      countStepEntries (loopGo polls timeoutMs fuel k st).2 s ≤ 1 ∧
      ((s ∈ st.seen ∨ (0 < fuel ∧ s ∈ (polls k).steps)) →
        countStepEntries (loopGo polls timeoutMs fuel k st).2 s = 1) := by
  intro fuel
  induction fuel with
  | zero =>
    intro k st h s
    rw [loopGo]
    dsimp only
    have hc : countStepEntries (st.log ++ [(2 * k, LogMsg.timeoutMark)]) s =
        if s ∈ st.seen then 1 else 0 := by
      rw [countStepEntries_append,
        countStepEntries_single_other _ _ _ (fun x hx => by cases hx), Nat.add_zero, h s]
    constructor
    · rw [hc]
      split <;> omega
    · rintro (hmem | ⟨hf, _⟩)
      · rw [hc, if_pos hmem]
      · omega
  | succ fuel ih =>
    intro k st h s
    obtain ⟨g1, g2, g3, _⟩ := stageState_ok (2 * (k + 1)) (polls k) st h
    rw [loopGo]
    by_cases hc1 : (polls k).status = .completed ∧
        (stageState (2 * (k + 1)) (polls k) st).sawWorking = true
    · rw [if_pos hc1]
      dsimp only
      have hc : countStepEntries ((stageState (2 * (k + 1)) (polls k) st).log ++
          [(2 * (k + 1), LogMsg.completedMark)]) s =
          if s ∈ (stageState (2 * (k + 1)) (polls k) st).seen then 1 else 0 := by
        rw [countStepEntries_append,
          countStepEntries_single_other _ _ _ (fun x hx => by cases hx), Nat.add_zero, g1 s]
      constructor
      · rw [hc]
        split <;> omega
      · rintro (hmem | ⟨_, hstep⟩)
        · rw [hc, if_pos (g2 s hmem)]
        · rw [hc, if_pos (g3 s hstep)]
    · rw [if_neg hc1]
      by_cases hc2 : (polls k).status = .completed ∧
          (stageState (2 * (k + 1)) (polls k) st).sawWorking = false ∧ 10000 < 2000 * (k + 1)
      · rw [if_pos hc2]
        dsimp only
        have hc : countStepEntries ((stageState (2 * (k + 1)) (polls k) st).log ++
            [(2 * (k + 1), LogMsg.completedQuick)]) s =
            if s ∈ (stageState (2 * (k + 1)) (polls k) st).seen then 1 else 0 := by
          rw [countStepEntries_append,
            countStepEntries_single_other _ _ _ (fun x hx => by cases hx), Nat.add_zero, g1 s]
        constructor
        · rw [hc]
          split <;> omega
        · rintro (hmem | ⟨_, hstep⟩)
          · rw [hc, if_pos (g2 s hmem)]
          · rw [hc, if_pos (g3 s hstep)]
      · rw [if_neg hc2]
        have hrec := ih (k + 1) (stageState (2 * (k + 1)) (polls k) st) g1 s
        constructor
        · exact hrec.1
        · rintro (hmem | ⟨_, hstep⟩)
          · exact hrec.2 (Or.inl (g2 s hmem))
          · exact hrec.2 (Or.inl (g3 s hstep))

theorem processSteps_sawWorking (sec : Nat) :
    ∀ (steps : List (List Char)) (st : LoopState),
      (processSteps sec st steps).sawWorking = st.sawWorking := by
  intro steps
  induction steps with
  | nil => intro st; rfl
  | cons s rest ih =>
    intro st
    by_cases hs : s ∈ st.seen
    · rw [processSteps, if_pos hs]
      exact ih st
    · rw [processSteps, if_neg hs]
      exact ih _

theorem processUrl_sawWorking (sec : Nat) (obs : AgentStatusResult) (st : LoopState) :
    (processUrl sec obs st).sawWorking = st.sawWorking := by
  rw [processUrl]
  split <;> rfl

theorem markWorking_sawWorking (sec : Nat) (st : LoopState) :
    (markWorking sec st).sawWorking = true := by
  rw [markWorking]
  by_cases h : st.sawWorking = false
  · rw [if_pos h]
  · rw [if_neg h]
    revert h
    cases st.sawWorking <;> simp

theorem logCurrent_sawWorking (sec : Nat) (obs : AgentStatusResult) (st : LoopState) :
    (logCurrent sec obs st).sawWorking = st.sawWorking := by
  rw [logCurrent]
  split <;> rfl

theorem processWorking_sawWorking (sec : Nat) (obs : AgentStatusResult) (st : LoopState) :
    (processWorking sec obs st).sawWorking =
      (st.sawWorking || decide (obs.status = .working)) := by
  rw [processWorking]
  by_cases hw : obs.status = .working
  · rw [if_pos hw, logCurrent_sawWorking, markWorking_sawWorking]
    simp [hw]
  · rw [if_neg hw]
    simp [hw]

theorem stageState_sawWorking (sec : Nat) (obs : AgentStatusResult) (st : LoopState) :
    (stageState sec obs st).sawWorking =
      (st.sawWorking || decide (obs.status = .working)) := by
  rw [stageState, processWorking_sawWorking, processUrl_sawWorking, processSteps_sawWorking]

theorem loopGo_success_guard (polls : Nat → AgentStatusResult) (timeoutMs : Nat) :
    ∀ (fuel k : Nat) (st : LoopState) (out : List Char) (log : List (Nat × LogMsg)),
      (st.sawWorking = true → ∃ j, j < k ∧ (polls j).status = .working) →
      loopGo polls timeoutMs fuel k st = (.success out, log) →
      ∃ i, (polls i).status = .completed ∧
        ((∃ j, j < i ∧ (polls j).status = .working) ∨ 10000 < 2000 * (i + 1)) := by
  intro fuel
  induction fuel with
  | zero =>
    intro k st out log _ heq
    rw [loopGo] at heq
    injection heq with h1 _
    cases h1
  | succ fuel ih =>
    intro k st out log hsaw heq
    rw [loopGo] at heq
    by_cases hc1 : (polls k).status = .completed ∧
        (stageState (2 * (k + 1)) (polls k) st).sawWorking = true
    · refine ⟨k, hc1.1, Or.inl ?_⟩
      have h4 := stageState_sawWorking (2 * (k + 1)) (polls k) st
      rw [hc1.2] at h4
      have hnw : decide ((polls k).status = .working) = false := by
        rw [hc1.1]
        rfl
      rw [hnw, Bool.or_false] at h4
      exact hsaw h4.symm
    · rw [if_neg hc1] at heq
      by_cases hc2 : (polls k).status = .completed ∧
          (stageState (2 * (k + 1)) (polls k) st).sawWorking = false ∧ 10000 < 2000 * (k + 1)
      · exact ⟨k, hc2.1, Or.inr hc2.2.2⟩
      · rw [if_neg hc2] at heq
        refine ih (k + 1) _ out log ?_ heq
        intro h3
        rw [stageState_sawWorking] at h3
        rcases Bool.or_eq_true_iff.mp h3 with hl | hr
        · obtain ⟨j, hj, hw⟩ := hsaw hl
          exact ⟨j, Nat.lt_succ_of_lt hj, hw⟩
        · exact ⟨k, Nat.lt_succ_self k, of_decide_eq_true hr⟩

theorem loopGo_all_completed (polls : Nat → AgentStatusResult) (timeoutMs : Nat)
    (hall : ∀ i, (polls i).status = .completed) :
    ∀ (fuel k : Nat) (st : LoopState), st.sawWorking = false →
      (∀ i, i < k + fuel → 2000 * (i + 1) ≤ 10000) →
      (loopGo polls timeoutMs fuel k st).1.isSuccess = false := by
  intro fuel
  induction fuel with
  | zero =>
    intro k st _ _
    rw [loopGo]
    rfl
  | succ fuel ih =>
    intro k st hsw hbound
    rw [loopGo]
    have hst3 : (stageState (2 * (k + 1)) (polls k) st).sawWorking = false := by
      rw [stageState_sawWorking, hsw]
      have hd : decide ((polls k).status = .working) = false := by
        rw [hall k]
        rfl
      rw [hd]
      rfl
    rw [if_neg (fun hc => by rw [hst3] at hc; exact Bool.false_ne_true hc.2)]
    rw [if_neg (fun hc => absurd hc.2.2 (by have := hbound k (by omega); omega))]
    exact ih (k + 1) _ hst3 (fun i hi => hbound i (by omega))

theorem loopGo_timeout_shape (polls : Nat → AgentStatusResult) (timeoutMs : Nat) :
    ∀ (fuel k : Nat) (st : LoopState),
      (loopGo polls timeoutMs fuel k st).1.isSuccess = false →
      ∃ log, loopGo polls timeoutMs fuel k st = (.timedOut timeoutMs, log) ∧
        log.getLast? = some (2 * (k + fuel), .timeoutMark) := by
  intro fuel
  induction fuel with
  | zero =>
    intro k st _
    refine ⟨st.log ++ [(2 * k, .timeoutMark)], by rw [loopGo], ?_⟩
    rw [List.getLast?_concat]
    norm_num
  | succ fuel ih =>
    intro k st h
    rw [loopGo] at h ⊢
    by_cases hc1 : (polls k).status = .completed ∧
        (stageState (2 * (k + 1)) (polls k) st).sawWorking = true
    · rw [if_pos hc1] at h
      exact absurd h (by simp [AskResult.isSuccess])
    · rw [if_neg hc1] at h ⊢
      by_cases hc2 : (polls k).status = .completed ∧
          (stageState (2 * (k + 1)) (polls k) st).sawWorking = false ∧ 10000 < 2000 * (k + 1)
      · rw [if_pos hc2] at h
        exact absurd h (by simp [AskResult.isSuccess])
      · rw [if_neg hc2] at h ⊢
        obtain ⟨log, hl, hlast⟩ := ih (k + 1) _ h
        refine ⟨log, hl, ?_⟩
        have harith : k + 1 + fuel = k + (fuel + 1) := by omega
        rw [harith] at hlast
        exact hlast

/-! ## Claim theorems: polling orchestrator -/

/-- C3: a completed status becomes the final result only when a working status
    was observed on an earlier poll of the same run, or the poll happened past
    the 10-second grace threshold since submission; a run that has seen only
    completed samples and whose whole deadline lies within the grace threshold
    never returns success (it polls to its deadline). -/
theorem claim_C3 :
    (∀ (polls : Nat → AgentStatusResult) (timeoutMs : Nat) (out : List Char)
        (log : List (Nat × LogMsg)),
      runAsk polls timeoutMs = (.success out, log) →
      ∃ i, (polls i).status = .completed ∧
        ((∃ j, j < i ∧ (polls j).status = .working) ∨ 10000 < 2000 * (i + 1))) ∧
    (∀ (polls : Nat → AgentStatusResult) (timeoutMs : Nat),
      (∀ i, (polls i).status = .completed) → timeoutMs ≤ 10000 →
      (runAsk polls timeoutMs).1.isSuccess = false) := by
  constructor
  · intro polls timeoutMs out log heq
    exact loopGo_success_guard polls timeoutMs (loopIterations timeoutMs) 0 initialLoopState
      out log (fun h => absurd h (by decide)) heq
  · intro polls timeoutMs hall hle
    apply loopGo_all_completed polls timeoutMs hall (loopIterations timeoutMs) 0
      initialLoopState rfl
    intro i hi
    have hfuel : loopIterations timeoutMs ≤ 5 := by
      rw [loopIterations]
      calc (timeoutMs + 1999) / 2000 ≤ 11999 / 2000 := Nat.div_le_div_right (by omega)
        _ = 5 := by norm_num
    omega

def workObs : AgentStatusResult := ⟨.working, [], [], [], true, []⟩

def doneObs : AgentStatusResult := ⟨.completed, [], [], "done".data, false, []⟩

def workThenDonePolls : Nat → AgentStatusResult :=
  fun k => if k = 0 then workObs else doneObs

theorem claim_C3_witness :
    (∃ i, (workThenDonePolls i).status = .completed ∧
      ((∃ j, j < i ∧ (workThenDonePolls j).status = .working) ∨ 10000 < 2000 * (i + 1))) ∧
    (runAsk (fun _ => doneObs) 10000).1.isSuccess = false :=
  ⟨claim_C3.1 workThenDonePolls 300000 "done".data
      [(0, .started), (2, .processing), (4, .completedMark)] (by decide),
   claim_C3.2 (fun _ => doneObs) 10000 (fun _ => rfl) (by norm_num)⟩

/-- C5: step-log idempotence — across the whole run, a given step text is
    pushed to the progress log at most once, and a step text present in a poll
    that the loop processes (in particular the first poll, whenever the loop
    runs at all) is logged exactly once, however many consecutive polls repeat
    it. -/
theorem claim_C5 (polls : Nat → AgentStatusResult) (timeoutMs : Nat) (s : List Char) :
    countStepEntries (runAsk polls timeoutMs).2 s ≤ 1 ∧
    (0 < timeoutMs → s ∈ (polls 0).steps →
      countStepEntries (runAsk polls timeoutMs).2 s = 1) := by
  have hinit : logCountOk initialLoopState := by
    intro t
    show countStepEntries [(0, LogMsg.started)] t = if t ∈ ([] : List (List Char)) then 1 else 0
    rw [countStepEntries_single_other _ _ _ (fun x hx => by cases hx),
      if_neg (List.not_mem_nil t)]
  constructor
  · exact (loopGo_count polls timeoutMs (loopIterations timeoutMs) 0 initialLoopState hinit s).1
  · intro ht hs
    have hfuel : 1 ≤ loopIterations timeoutMs := by
      rw [loopIterations]
      exact (Nat.le_div_iff_mul_le (by norm_num)).2 (by omega)
    exact (loopGo_count polls timeoutMs (loopIterations timeoutMs) 0 initialLoopState hinit s).2
      (Or.inr ⟨hfuel, hs⟩)

def readingObs : AgentStatusResult := ⟨.idle, ["Reading X".data], [], [], false, []⟩

theorem claim_C5_witness :
    countStepEntries (runAsk (fun _ => readingObs) 6000).2 "Reading X".data = 1 :=
  (claim_C5 (fun _ => readingObs) 6000 "Reading X".data).2 (by norm_num) (by decide)

/-- C6 (amended): a run that reaches its deadline without terminating returns a
    timeout bundle — not an exception — carrying the configured timeout
    duration (the text interpolates `timeout / 1000`, not the measured elapsed
    time) together with the full accumulated progress log, whose final entry is
    the timeout mark stamped with the actual elapsed seconds at exit. -/
theorem claim_C6 (polls : Nat → AgentStatusResult) (timeoutMs : Nat)
    (h : (runAsk polls timeoutMs).1.isSuccess = false) :
    ∃ log, runAsk polls timeoutMs = (.timedOut timeoutMs, log) ∧
      log.getLast? = some (2 * loopIterations timeoutMs, .timeoutMark) := by
  obtain ⟨log, h1, h2⟩ :=
    loopGo_timeout_shape polls timeoutMs (loopIterations timeoutMs) 0 initialLoopState h
  refine ⟨log, h1, ?_⟩
  rw [h2]
  norm_num

theorem claim_C6_witness :
    ∃ log, runAsk (fun _ => idleObs) 4000 = (.timedOut 4000, log) ∧
      log.getLast? = some (2 * loopIterations 4000, .timeoutMark) :=
  claim_C6 (fun _ => idleObs) 4000 (by decide)

theorem claim_C6_counterexample :
    runAsk (fun _ => idleObs) 5000 =
      (.timedOut 5000, [(0, .started), (6, .timeoutMark)]) ∧
    2 * loopIterations 5000 = 6 ∧ (5000 : Nat) ≠ 6 * 1000 :=
  ⟨by decide, by decide, by decide⟩
